import Mathlib

/-!
Verification of the student-data comparator (src/app/page.tsx).

The development shallowly embeds the data-transform core of the page:
the CSV loader (readCSVFile), the matcher (matchData), the sorter
(sortedData), the CSV exporter (downloadAsCSV) and the top-level action
(processFiles).  Rows are modelled as association lists from column
names to cell strings; JavaScript string values that may be undefined
are modelled as Option String.  JavaScript toLowerCase is modelled on
the ASCII letters (the only ones the sentinels and the documented
column names use), and String.prototype.trim by dropping whitespace
characters from both ends.  Array.prototype.sort with a comparator is
modelled as a stable merge sort that keeps the left element when the
comparator returns a non-positive number, and localeCompare as a
code-point lexicographic comparison.
-/

namespace StudentComparator

/-- JavaScript a || b for strings: the empty string is the only falsy string. -/
def jsOr (a b : String) : String := if a = "" then b else a

/-- JavaScript a || b where a is a possibly undefined string (undefined and
the empty string are both falsy). -/
def jsOrU : Option String → String → String
  | some s, d => if s = "" then d else s
  | none, d => d

/-- ASCII lowering of a character, modelling what toLowerCase does on the
letters A..Z (all inputs relevant to the sentinels and column names). -/
def lowerChar (c : Char) : Char :=
  match c with
  | 'A' => 'a' | 'B' => 'b' | 'C' => 'c' | 'D' => 'd' | 'E' => 'e' | 'F' => 'f'
  | 'G' => 'g' | 'H' => 'h' | 'I' => 'i' | 'J' => 'j' | 'K' => 'k' | 'L' => 'l'
  | 'M' => 'm' | 'N' => 'n' | 'O' => 'o' | 'P' => 'p' | 'Q' => 'q' | 'R' => 'r'
  | 'S' => 's' | 'T' => 't' | 'U' => 'u' | 'V' => 'v' | 'W' => 'w' | 'X' => 'x'
  | 'Y' => 'y' | 'Z' => 'z' | c => c

/-- Model of String.prototype.toLowerCase. -/
def jsLower (s : String) : String := ⟨s.data.map lowerChar⟩

/-- Whitespace test used by the model of String.prototype.trim. -/
def isWs (c : Char) : Bool := c.isWhitespace

/-- Drop whitespace from both ends of a character list. -/
def trimChars (l : List Char) : List Char :=
  ((l.dropWhile isWs).reverse.dropWhile isWs).reverse

/-- Model of String.prototype.trim. -/
def jsTrim (s : String) : String := ⟨trimChars s.data⟩

/-- The name normalisation the matcher applies to both sides:
s.toLowerCase().trim() in the source. -/
def normName (s : String) : String := jsTrim (jsLower s)

/-- A raw parsed row: column name to cell string, as produced by Papa.parse
with header:true or by XLSX.utils.sheet_to_json.  A key that is absent
models an undefined field. -/
def RawRow : Type := List (String × String)

/-- A reference-file row (from readExcelFile).  sheet_to_json omits empty
cells, so lookups may fail. -/
def RefRow : Type := List (String × String)

instance : DecidableEq RawRow := by unfold RawRow; infer_instance

instance : Membership (String × String) RefRow := by unfold RefRow; infer_instance

/-- Output of readCSVFile: only the four expected columns are kept and every
field is a (possibly empty) string. -/
structure Student where
  course : String
  fullName : String
  examMarks : String
  total : String
deriving DecidableEq, Repr

/-- Output row of matchData: the four kept columns plus the Classroom value. -/
structure Out where
  course : String
  fullName : String
  examMarks : String
  total : String
  classroom : String
deriving DecidableEq, Repr

/-- The per-row column filter of readCSVFile: each expected column is read
through its fallback chain, for example
row[Course] || row[course] || the empty string. -/
def filterRow (row : RawRow) : Student :=
  { course := jsOrU (row.lookup "Course") (jsOrU (row.lookup "course") "")
    fullName := jsOrU (row.lookup "Full Name")
      (jsOrU (row.lookup "full name") (jsOrU (row.lookup "Full name") ""))
    examMarks := jsOrU (row.lookup "Exam Marks")
      (jsOrU (row.lookup "exam marks") (jsOrU (row.lookup "Exam marks") ""))
    total := jsOrU (row.lookup "Total") (jsOrU (row.lookup "total") "") }

/-- readCSVFile on already tokenised records: the first record is the header
(handled by papaObjects below); this is the mapping step over data rows. -/
def readCSVRows (rows : List RawRow) : List Student := rows.map filterRow

/-- The predicate of the find inside matchData: the corrected name of the
reference row, optional-chained through toLowerCase().trim(), compared with
the normalised full name of the primary row.  An absent Corrected Name field
is undefined and never equals a string. -/
def nameMatches (fullName : String) (row : RefRow) : Bool :=
  ((List.lookup "Corrected Name" row).map normName) == some (normName fullName)

/-- Classroom resolution of matchData: the first matching reference row wins;
on a match the classroom is read through the lowercase key classroom with the
sentinel for a falsy value, otherwise the Not Found sentinel.  Note the
source reads matchedStudent[classroom] (lowercase), not the documented
capitalised Classroom column. -/
def lookupClassroom (ref : List RefRow) (fullName : String) : String :=
  match ref.find? (fun row => nameMatches fullName row) with
  | some row => jsOrU (List.lookup "classroom" row) "Found but no classroom"
  | none => "Not Found"

/-- One output row of matchData. -/
def matchRow (ref : List RefRow) (s : Student) : Out :=
  { course := jsOr s.course ""
    fullName := jsOr s.fullName ""
    examMarks := jsOr s.examMarks ""
    total := jsOr s.total ""
    classroom := lookupClassroom ref s.fullName }

/-- matchData from the source: map every primary row to its annotated row. -/
def matchData (main : List Student) (ref : List RefRow) : List Out :=
  main.map (matchRow ref)

theorem jsOr_empty (a : String) : jsOr a "" = a := by
  unfold jsOr
  split <;> simp_all

theorem jsOrU_some_empty (a : String) : jsOrU (some a) "" = a := by
  unfold jsOrU
  split <;> simp_all

/-! The sorter.  sortedData sorts the matched rows with a comparator that
sends the two sentinels to the end and otherwise compares the lowercased
classroom strings; localeCompare is modelled as code-point lexicographic
comparison, and Array.prototype.sort as a stable merge sort that keeps the
left element whenever the comparator returns a non-positive number. -/

/-- Strict code-point lexicographic order on character lists. -/
def lexLtB : List Char → List Char → Bool
  | [], [] => false
  | [], _ :: _ => true
  | _ :: _, [] => false
  | a :: as, b :: bs => if a < b then true else if b < a then false else lexLtB as bs

/-- Model of localeCompare restricted to its sign: -1, 0 or 1 by
lexicographic comparison. -/
def localeCmp (a b : String) : Int :=
  if a = b then 0 else if lexLtB a.data b.data then -1 else 1

/-- The key the comparator computes for a row:
a.Classroom?.toLowerCase() || the empty string. -/
def classKey (s : Out) : String := jsOr (jsLower s.classroom) ""

/-- The comparator of sortedData, returning the JavaScript comparator sign. -/
def cmpRows (a b : Out) : Int :=
  if classKey a = "not found" then 1
  else if classKey b = "not found" then -1
  else if classKey a = "found but no classroom" then 1
  else if classKey b = "found but no classroom" then -1
  else localeCmp (classKey a) (classKey b)

/-- Keep the left element when the comparator is non-positive. -/
def rowLe (a b : Out) : Bool := decide (cmpRows a b ≤ 0)

/-- Merge of two lists guided by a Bool relation, taking the left element
when the relation holds. -/
def mergeBy (le : α → α → Bool) : List α → List α → List α
  | [], ys => ys
  | x :: xs, [] => x :: xs
  | x :: xs, y :: ys =>
    if le x y then x :: mergeBy le xs (y :: ys) else y :: mergeBy le (x :: xs) ys
termination_by a b => a.length + b.length

/-- Split a list into the elements at even and at odd positions. -/
def splitHalves : List α → List α × List α
  | [] => ([], [])
  | [a] => ([a], [])
  | a :: b :: rest =>
    let p := splitHalves rest
    (a :: p.1, b :: p.2)

theorem splitHalves_le : ∀ (l : List α),
    (splitHalves l).1.length ≤ l.length ∧ (splitHalves l).2.length ≤ l.length
  | [] => by simp [splitHalves]
  | [a] => by simp [splitHalves]
  | a :: b :: rest => by
    have ih := splitHalves_le rest
    simp only [splitHalves, List.length_cons]
    omega

/-- Merge sort over a Bool relation, the model of Array.prototype.sort. -/
def mergeSortBy (le : α → α → Bool) : List α → List α
  | [] => []
  | [a] => [a]
  | a :: b :: rest =>
    let p := splitHalves (a :: b :: rest)
    mergeBy le (mergeSortBy le p.1) (mergeSortBy le p.2)
termination_by l => l.length
decreasing_by
  · have h := splitHalves_le rest
    simp only [splitHalves, List.length_cons]
    omega
  · have h := splitHalves_le rest
    simp only [splitHalves, List.length_cons]
    omega

/-- sortedData from the source: the spread copy of processedData sorted by
the comparator. -/
def sortedData (l : List Out) : List Out := mergeSortBy rowLe l

theorem mergeBy_cons_cons (le : α → α → Bool) (x y : α) (xs ys : List α) :
    mergeBy le (x :: xs) (y :: ys)
      = if le x y then x :: mergeBy le xs (y :: ys) else y :: mergeBy le (x :: xs) ys := by
  rw [mergeBy]

theorem mem_mergeBy (le : α → α → Bool) :
    ∀ (L R : List α) (a : α), a ∈ mergeBy le L R ↔ a ∈ L ∨ a ∈ R
  | [], R, a => by simp [mergeBy]
  | x :: xs, [], a => by simp [mergeBy]
  | x :: xs, y :: ys, a => by
    rw [mergeBy_cons_cons]
    by_cases h : le x y = true
    · rw [if_pos h]
      simp only [List.mem_cons, mem_mergeBy le xs (y :: ys) a]
      tauto
    · rw [if_neg h]
      simp only [List.mem_cons, mem_mergeBy le (x :: xs) ys a]
      tauto
termination_by L R _ => L.length + R.length

theorem mem_splitHalves : ∀ (l : List α) (a : α),
    (a ∈ (splitHalves l).1 ∨ a ∈ (splitHalves l).2) ↔ a ∈ l
  | [], a => by simp [splitHalves]
  | [x], a => by simp [splitHalves]
  | x :: y :: rest, a => by
    have ih := mem_splitHalves rest a
    simp only [splitHalves, List.mem_cons]
    tauto

theorem mem_mergeSortBy (le : α → α → Bool) :
    ∀ (l : List α) (a : α), a ∈ mergeSortBy le l ↔ a ∈ l
  | [], a => by simp [mergeSortBy]
  | [x], a => by simp [mergeSortBy]
  | x :: y :: rest, a => by
    have h := splitHalves_le rest
    have h1 := mem_mergeSortBy le (splitHalves (x :: y :: rest)).1 a
    have h2 := mem_mergeSortBy le (splitHalves (x :: y :: rest)).2 a
    rw [mergeSortBy, mem_mergeBy, h1, h2, mem_splitHalves]
termination_by l _ => l.length
decreasing_by
  · simp only [splitHalves, List.length_cons]
    omega
  · simp only [splitHalves, List.length_cons]
    omega

/-- Pairwise order established by merging, for any transitive relation that
the Bool comparator decides in both directions. -/
theorem pairwise_mergeBy {S : α → α → Prop} {le : α → α → Bool}
    (hTr : ∀ a b c, S a b → S b c → S a c)
    (hT : ∀ a b, le a b = true → S a b)
    (hF : ∀ a b, le a b = false → S b a) :
    ∀ (L R : List α), L.Pairwise S → R.Pairwise S → (mergeBy le L R).Pairwise S
  | [], R, _, hR => by simpa [mergeBy] using hR
  | x :: xs, [], hL, _ => by simpa [mergeBy] using hL
  | x :: xs, y :: ys, hL, hR => by
    rw [mergeBy_cons_cons]
    by_cases h : le x y = true
    · rw [if_pos h]
      refine List.Pairwise.cons ?_ ?_
      · intro z hz
        rcases (mem_mergeBy le xs (y :: ys) z).mp hz with hz | hz
        · exact List.rel_of_pairwise_cons hL hz
        · rcases List.mem_cons.mp hz with rfl | hz
          · exact hT x z h
          · exact hTr x y z (hT x y h) (List.rel_of_pairwise_cons hR hz)
      · exact pairwise_mergeBy hTr hT hF xs (y :: ys) hL.tail hR
    · rw [if_neg h]
      have hyx : S y x := hF x y (by simpa using h)
      refine List.Pairwise.cons ?_ ?_
      · intro z hz
        rcases (mem_mergeBy le (x :: xs) ys z).mp hz with hz | hz
        · rcases List.mem_cons.mp hz with rfl | hz
          · exact hyx
          · exact hTr y x z hyx (List.rel_of_pairwise_cons hL hz)
        · exact List.rel_of_pairwise_cons hR hz
      · exact pairwise_mergeBy hTr hT hF (x :: xs) ys hL hR.tail
termination_by L R _ _ => L.length + R.length

/-- Merge sort yields a pairwise ordered list for any arbitrary input. -/
theorem pairwise_mergeSortBy {S : α → α → Prop} {le : α → α → Bool}
    (hTr : ∀ a b c, S a b → S b c → S a c)
    (hT : ∀ a b, le a b = true → S a b)
    (hF : ∀ a b, le a b = false → S b a) :
    ∀ (l : List α), (mergeSortBy le l).Pairwise S
  | [] => by simp [mergeSortBy]
  | [a] => by simp [mergeSortBy]
  | a :: b :: rest => by
    have h := splitHalves_le rest
    have h1 := pairwise_mergeSortBy hTr hT hF (splitHalves (a :: b :: rest)).1
    have h2 := pairwise_mergeSortBy hTr hT hF (splitHalves (a :: b :: rest)).2
    rw [mergeSortBy]
    exact pairwise_mergeBy hTr hT hF _ _ h1 h2
termination_by l => l.length
decreasing_by
  · simp only [splitHalves, List.length_cons]
    omega
  · simp only [splitHalves, List.length_cons]
    omega

theorem lexLtB_cons (x y : Char) (xs ys : List Char) :
    lexLtB (x :: xs) (y :: ys) = true ↔ x < y ∨ (x = y ∧ lexLtB xs ys = true) := by
  simp only [lexLtB]
  split_ifs with h1 h2
  · simp [h1]
  · constructor
    · intro h
      cases h
    · rintro (h | ⟨rfl, h⟩)
      · exact absurd h h1
      · exact absurd h2 (lt_irrefl x)
  · have hxy : x = y := le_antisymm (not_lt.mp h2) (not_lt.mp h1)
    constructor
    · intro h
      exact Or.inr ⟨hxy, h⟩
    · rintro (h | ⟨rfl, h⟩)
      · exact absurd h h1
      · exact h

theorem lexLtB_trans : ∀ (a b c : List Char),
    lexLtB a b = true → lexLtB b c = true → lexLtB a c = true
  | [], [], _, h, _ => by simp [lexLtB] at h
  | [], _ :: _, [], _, h => by simp [lexLtB] at h
  | [], _ :: _, _ :: _, _, _ => by simp [lexLtB]
  | _ :: _, [], _, h, _ => by simp [lexLtB] at h
  | _ :: _, _ :: _, [], _, h => by simp [lexLtB] at h
  | x :: xs, y :: ys, z :: zs, h1, h2 => by
    rw [lexLtB_cons] at h1 h2 ⊢
    rcases h1 with h1 | ⟨rfl, h1⟩
    · rcases h2 with h2 | ⟨rfl, h2⟩
      · exact Or.inl (lt_trans h1 h2)
      · exact Or.inl h1
    · rcases h2 with h2 | ⟨rfl, h2⟩
      · exact Or.inl h2
      · exact Or.inr ⟨rfl, lexLtB_trans xs ys zs h1 h2⟩

theorem lexLtB_trichotomy : ∀ (a b : List Char),
    a = b ∨ lexLtB a b = true ∨ lexLtB b a = true
  | [], [] => Or.inl rfl
  | [], _ :: _ => Or.inr (Or.inl (by simp [lexLtB]))
  | _ :: _, [] => Or.inr (Or.inr (by simp [lexLtB]))
  | x :: xs, y :: ys => by
    rcases lt_trichotomy x y with h | rfl | h
    · exact Or.inr (Or.inl ((lexLtB_cons x y xs ys).mpr (Or.inl h)))
    · rcases lexLtB_trichotomy xs ys with rfl | h | h
      · exact Or.inl rfl
      · exact Or.inr (Or.inl ((lexLtB_cons x x xs ys).mpr (Or.inr ⟨rfl, h⟩)))
      · exact Or.inr (Or.inr ((lexLtB_cons x x ys xs).mpr (Or.inr ⟨rfl, h⟩)))
    · exact Or.inr (Or.inr ((lexLtB_cons y x ys xs).mpr (Or.inl h)))

/-- Lexicographic less-or-equal on strings (code points, as the model of
localeCompare orders them). -/
def lexLe (a b : String) : Prop := a = b ∨ lexLtB a.data b.data = true

theorem lexLe_trans {a b c : String} (h1 : lexLe a b) (h2 : lexLe b c) : lexLe a c := by
  rcases h1 with rfl | h1
  · exact h2
  · rcases h2 with rfl | h2
    · exact Or.inr h1
    · exact Or.inr (lexLtB_trans _ _ _ h1 h2)

/-- A row the comparator treats as an ordinary classroom: its lowercased
classroom key matches neither sentinel. -/
def plainKey (s : Out) : Prop :=
  classKey s ≠ "not found" ∧ classKey s ≠ "found but no classroom"

/-- The order the sorter establishes between two rows that end up adjacent
or separated in the output, stated over the lowercased classroom keys: rows
the comparator recognises as Not Found come after everything, rows it
recognises as Found but no classroom come after every plain row, and plain
rows are ordered lexicographically case-insensitively. -/
def sortOrd (a b : Out) : Prop :=
  (classKey a = "not found" → classKey b = "not found")
  ∧ (classKey a = "found but no classroom" →
      classKey b = "found but no classroom" ∨ classKey b = "not found")
  ∧ (plainKey a → plainKey b → lexLe (classKey a) (classKey b))

theorem sortOrd_trans (a b c : Out) (h1 : sortOrd a b) (h2 : sortOrd b c) : sortOrd a c := by
  obtain ⟨n1, f1, p1⟩ := h1
  obtain ⟨n2, f2, p2⟩ := h2
  refine ⟨fun h => n2 (n1 h), fun h => ?_, fun ha hc => ?_⟩
  · rcases f1 h with h2' | h2'
    · exact f2 h2'
    · exact Or.inr (n2 h2')
  · by_cases hbn : classKey b = "not found"
    · exact absurd (n2 hbn) hc.1
    · by_cases hbf : classKey b = "found but no classroom"
      · rcases f2 hbf with h | h
        · exact absurd h hc.2
        · exact absurd h hc.1
      · exact lexLe_trans (p1 ha ⟨hbn, hbf⟩) (p2 ⟨hbn, hbf⟩ hc)

theorem rowLe_true_sortOrd (a b : Out) (h : rowLe a b = true) : sortOrd a b := by
  have hc : cmpRows a b ≤ 0 := of_decide_eq_true h
  unfold cmpRows at hc
  split_ifs at hc with h1 h2 h3 h4
  · omega
  · exact ⟨fun ha => absurd ha h1, fun _ => Or.inr h2, fun _ hb => absurd h2 hb.1⟩
  · omega
  · exact ⟨fun ha => absurd ha h1, fun ha => absurd ha h3, fun _ hb => absurd h4 hb.2⟩
  · refine ⟨fun ha => absurd ha h1, fun ha => absurd ha h3, fun _ _ => ?_⟩
    unfold localeCmp at hc
    split_ifs at hc with h5 h6
    · exact Or.inl h5
    · exact Or.inr h6
    · omega

theorem rowLe_false_sortOrd (a b : Out) (h : rowLe a b = false) : sortOrd b a := by
  have hc : ¬ cmpRows a b ≤ 0 := of_decide_eq_false h
  unfold cmpRows at hc
  split_ifs at hc with h1 h2 h3 h4
  · refine ⟨fun _ => h1, fun _ => Or.inr h1, fun _ ha => absurd h1 ha.1⟩
  · omega
  · exact ⟨fun hb => absurd hb h2, fun _ => Or.inl h3, fun _ ha => absurd h3 ha.2⟩
  · omega
  · refine ⟨fun hb => absurd hb h2, fun hb => absurd hb h4, fun _ _ => ?_⟩
    unfold localeCmp at hc
    split_ifs at hc with h5 h6
    · omega
    · omega
    · rcases lexLtB_trichotomy (classKey b).data (classKey a).data with he | hlt | hlt
      · refine Or.inl ?_
        cases hb : classKey b with
        | mk db =>
          cases ha : classKey a with
          | mk da =>
            rw [hb, ha] at he
            simp only [String.data] at he
            rw [he]
      · exact Or.inr hlt
      · exact absurd hlt h6

/-! The delimited-text exporter and loader.  Papa.unparse is modelled with
the configuration the source passes: every field quoted, escape character a
double quote, comma delimiter, and the default carriage-return line-feed
record separator.  Papa.parse with header:true is modelled as a character
state machine producing the records, whose first record is taken as the
header row; reading the uploaded file through the browser decodes UTF-8 and
strips a leading byte-order mark, which decodeFileText models. -/

/-- Double every quote character, the escaping inside a quoted field. -/
def escQuotes : List Char → List Char
  | [] => []
  | c :: cs => if c = '"' then '"' :: '"' :: escQuotes cs else c :: escQuotes cs

/-- Serialise one field: always quoted. -/
def serFieldChars (f : List Char) : List Char := '"' :: (escQuotes f ++ ['"'])

/-- Join chunks with a separator. -/
def sepJoin (sep : List Char) : List (List Char) → List Char
  | [] => []
  | [x] => x
  | x :: y :: rest => x ++ sep ++ sepJoin sep (y :: rest)

/-- Serialise one record: quoted fields joined by commas. -/
def serRecordChars (fs : List (List Char)) : List Char :=
  sepJoin [','] (fs.map serFieldChars)

/-- Serialise a table: records joined by carriage-return line-feed. -/
def unparseChars (rows : List (List (List Char))) : List Char :=
  sepJoin ['\r', '\n'] (rows.map serRecordChars)

/-- Modes of the parsing state machine: at a field start, inside an unquoted
field, inside a quoted field, just after a quote inside a quoted field, and
just after a carriage return ended a record. -/
inductive PMode
  | start
  | plain
  | quoted
  | qq
  | cr
deriving DecidableEq, Repr

/-- Parser state: finished records, fields of the current record, characters
of the current field. -/
structure PState where
  out : List (List (List Char))
  row : List (List Char)
  fld : List Char
deriving DecidableEq, Repr

/-- Close the current field and record. -/
def pushRow (st : PState) : PState := ⟨st.out ++ [st.row ++ [st.fld]], [], []⟩

/-- Transition at a field start. -/
def stepStart (st : PState) (c : Char) : PState × PMode :=
  if c = '"' then (st, PMode.quoted)
  else if c = ',' then (⟨st.out, st.row ++ [st.fld], []⟩, PMode.start)
  else if c = '\n' then (pushRow st, PMode.start)
  else if c = '\r' then (pushRow st, PMode.cr)
  else (⟨st.out, st.row, st.fld ++ [c]⟩, PMode.plain)

/-- One transition of the parsing machine. -/
def pstep : PState × PMode → Char → PState × PMode
  | (st, PMode.start), c => stepStart st c
  | (st, PMode.plain), c =>
    if c = ',' then (⟨st.out, st.row ++ [st.fld], []⟩, PMode.start)
    else if c = '\n' then (pushRow st, PMode.start)
    else if c = '\r' then (pushRow st, PMode.cr)
    else (⟨st.out, st.row, st.fld ++ [c]⟩, PMode.plain)
  | (st, PMode.quoted), c =>
    if c = '"' then (st, PMode.qq)
    else (⟨st.out, st.row, st.fld ++ [c]⟩, PMode.quoted)
  | (st, PMode.qq), c =>
    if c = '"' then (⟨st.out, st.row, st.fld ++ ['"']⟩, PMode.quoted)
    else if c = ',' then (⟨st.out, st.row ++ [st.fld], []⟩, PMode.start)
    else if c = '\n' then (pushRow st, PMode.start)
    else if c = '\r' then (pushRow st, PMode.cr)
    else (⟨st.out, st.row, st.fld ++ [c]⟩, PMode.plain)
  | (st, PMode.cr), c => if c = '\n' then (st, PMode.start) else stepStart st c

/-- Flush the machine at the end of the input. -/
def pfinish : PState × PMode → List (List (List Char))
  | (st, PMode.start) => if st.row.isEmpty && st.fld.isEmpty then st.out else (pushRow st).out
  | (st, PMode.cr) => st.out
  | (st, _) => (pushRow st).out

/-- Parse delimited text into records of fields. -/
def parseRaw (cs : List Char) : List (List (List Char)) :=
  pfinish (cs.foldl pstep (⟨[], [], []⟩, PMode.start))

/-- Serialise a table of strings. -/
def unparseStrings (rows : List (List String)) : List Char :=
  unparseChars (rows.map (fun r => r.map String.data))

/-- Parse delimited text into records of strings. -/
def parseStrings (cs : List Char) : List (List String) :=
  (parseRaw cs).map (fun r => r.map String.mk)

/-- The decode step of reading the uploaded file as UTF-8 text: a leading
byte-order mark is stripped by the WHATWG decoder. -/
def decodeFileText (cs : List Char) : List Char :=
  match cs with
  | c :: rest => if c = '\uFEFF' then rest else c :: rest
  | [] => []

/-- Papa.parse with header:true: the first record names the columns and each
later record is zipped with those names. -/
def papaObjects (cs : List Char) : List RawRow :=
  match parseStrings cs with
  | [] => []
  | hdr :: rows => rows.map (fun r => hdr.zip r)

/-- The whole readCSVFile on the text content of a file: decode, parse with
header, keep the four expected columns of every data row. -/
def readCSVText (cs : List Char) : List Student :=
  (papaObjects (decodeFileText cs)).map filterRow

/-- Classroom cell formatting of downloadAsCSV: both sentinels stay as they
are, every other classroom value is wrapped in the formula-style literal
escape. -/
def wrapClassroom (c : String) : String :=
  if c = "Not Found" || c = "Found but no classroom" then c
  else "=\"" ++ c ++ "\""

/-- One record of the formattedData array built by downloadAsCSV. -/
def formatRow (s : Out) : List String :=
  [jsOr s.course "", jsOr s.fullName "", jsOr s.examMarks "", jsOr s.total "",
    wrapClassroom s.classroom]

/-- The header row Papa.unparse derives from the object keys. -/
def csvHeaderRow : List String :=
  ["Course", "Full Name", "Exam Marks", "Total", "Classroom"]

/-- The full text downloadAsCSV puts into the blob: a byte-order mark
prepended to the serialised table. -/
def downloadCSVText (rows : List Out) : List Char :=
  '\uFEFF' :: unparseStrings (csvHeaderRow :: rows.map formatRow)

/-! Round-trip lemmas for the exporter and the parser machine. -/

theorem foldl_escQuotes (f : List Char) : ∀ (st : PState),
    (escQuotes f).foldl pstep (st, PMode.quoted)
      = (⟨st.out, st.row, st.fld ++ f⟩, PMode.quoted) := by
  induction f with
  | nil =>
    intro st
    simp [escQuotes]
  | cons c cs ih =>
    intro st
    by_cases h : c = '"'
    · subst h
      have he : escQuotes ('"' :: cs) = '"' :: '"' :: escQuotes cs := by
        simp [escQuotes]
      rw [he]
      simp only [List.foldl_cons]
      rw [show pstep (st, PMode.quoted) '"' = (st, PMode.qq) from by simp [pstep]]
      rw [show pstep (st, PMode.qq) '"'
            = (⟨st.out, st.row, st.fld ++ ['"']⟩, PMode.quoted) from by simp [pstep]]
      rw [ih]
      simp
    · have he : escQuotes (c :: cs) = c :: escQuotes cs := by
        simp [escQuotes, h]
      rw [he]
      simp only [List.foldl_cons]
      rw [show pstep (st, PMode.quoted) c
            = (⟨st.out, st.row, st.fld ++ [c]⟩, PMode.quoted) from by simp [pstep, h]]
      rw [ih]
      simp

theorem foldl_serField (f : List Char) (o : List (List (List Char)))
    (r : List (List Char)) :
    (serFieldChars f).foldl pstep (⟨o, r, []⟩, PMode.start)
      = (⟨o, r, f⟩, PMode.qq) := by
  simp only [serFieldChars, List.foldl_cons]
  rw [show pstep (⟨o, r, []⟩, PMode.start) '"' = (⟨o, r, []⟩, PMode.quoted) from by
    simp [pstep, stepStart]]
  rw [List.foldl_append, foldl_escQuotes]
  simp only [List.foldl_cons, List.foldl_nil, List.nil_append]
  simp [pstep]

theorem foldl_serRecord (fs : List (List Char)) (lastF : List Char) :
    ∀ (o : List (List (List Char))) (r : List (List Char)),
    (serRecordChars (fs ++ [lastF])).foldl pstep (⟨o, r, []⟩, PMode.start)
      = (⟨o, r ++ fs, lastF⟩, PMode.qq) := by
  induction fs with
  | nil =>
    intro o r
    simpa [serRecordChars, sepJoin] using foldl_serField lastF o r
  | cons f rest ih =>
    intro o r
    have hshape : serRecordChars ((f :: rest) ++ [lastF])
        = serFieldChars f ++ ([','] ++ serRecordChars (rest ++ [lastF])) := by
      cases rest <;> simp [serRecordChars, sepJoin, List.append_assoc]
    rw [hshape, List.foldl_append, foldl_serField, List.foldl_append]
    rw [show [','].foldl pstep (⟨o, r, f⟩, PMode.qq)
          = (⟨o, r ++ [f], []⟩, PMode.start) from by simp [pstep]]
    rw [ih]
    simp

theorem foldl_unparse (rowsInit : List (List (List Char))) (fs : List (List Char))
    (lastF : List Char) (hr : ∀ row ∈ rowsInit, row ≠ []) :
    ∀ (o : List (List (List Char))),
    (unparseChars (rowsInit ++ [fs ++ [lastF]])).foldl pstep (⟨o, [], []⟩, PMode.start)
      = (⟨o ++ rowsInit, fs, lastF⟩, PMode.qq) := by
  induction rowsInit with
  | nil =>
    intro o
    simpa [unparseChars, sepJoin] using foldl_serRecord fs lastF o []
  | cons r0 rest ih =>
    intro o
    obtain ⟨g, gl, rfl⟩ : ∃ g gl, r0 = g ++ [gl] := by
      rcases List.eq_nil_or_concat r0 with h | ⟨g, gl, h⟩
      · exact absurd h (hr r0 (List.mem_cons_self r0 rest))
      · exact ⟨g, gl, by simpa [List.concat_eq_append] using h⟩
    have hshape : unparseChars ((g ++ [gl]) :: rest ++ [fs ++ [lastF]])
        = serRecordChars (g ++ [gl])
          ++ (['\r'] ++ (['\n'] ++ unparseChars (rest ++ [fs ++ [lastF]]))) := by
      cases rest <;> simp [unparseChars, sepJoin, List.append_assoc]
    rw [hshape, List.foldl_append, foldl_serRecord, List.foldl_append]
    simp only [List.nil_append]
    rw [show ['\r'].foldl pstep (⟨o, g, gl⟩, PMode.qq)
          = (⟨o ++ [g ++ [gl]], [], []⟩, PMode.cr) from by simp [pstep, pushRow]]
    rw [List.foldl_append]
    rw [show ['\n'].foldl pstep ((⟨o ++ [g ++ [gl]], [], []⟩ : PState), PMode.cr)
          = (⟨o ++ [g ++ [gl]], [], []⟩, PMode.start) from by simp [pstep]]
    rw [ih (fun row hrow => hr row (List.mem_cons_of_mem _ hrow)) (o ++ [g ++ [gl]])]
    simp

/-- The parser recovers exactly the serialised table, provided the table has
a record and no record is empty. -/
theorem parseRaw_unparseChars (rows : List (List (List Char))) (hne : rows ≠ [])
    (hr : ∀ row ∈ rows, row ≠ []) : parseRaw (unparseChars rows) = rows := by
  obtain ⟨rowsInit, lastRow, rfl⟩ : ∃ ri lr, rows = ri ++ [lr] := by
    rcases List.eq_nil_or_concat rows with h | ⟨ri, lr, h⟩
    · exact absurd h hne
    · exact ⟨ri, lr, by simpa [List.concat_eq_append] using h⟩
  obtain ⟨fs, lastF, rfl⟩ : ∃ fs lf, lastRow = fs ++ [lf] := by
    rcases List.eq_nil_or_concat lastRow with h | ⟨fs, lf, h⟩
    · exact absurd h (hr lastRow (by simp))
    · exact ⟨fs, lf, by simpa [List.concat_eq_append] using h⟩
  unfold parseRaw
  rw [foldl_unparse rowsInit fs lastF (fun row hrow => hr row (by simp [hrow])) []]
  simp [pfinish, pushRow]

theorem parseStrings_unparseStrings (rows : List (List String)) (hne : rows ≠ [])
    (hr : ∀ row ∈ rows, row ≠ []) : parseStrings (unparseStrings rows) = rows := by
  unfold parseStrings unparseStrings
  rw [parseRaw_unparseChars]
  · rw [List.map_map]
    have : ((fun r => List.map String.mk r) ∘ fun r => r.map String.data)
        = (id : List String → List String) := by
      funext r
      simp only [Function.comp, List.map_map, id]
      rw [show String.mk ∘ String.data = id from funext fun s => rfl, List.map_id]
    rw [this, List.map_id]
  · simpa using hne
  · intro row hrow
    rcases List.mem_map.mp hrow with ⟨r, hrm, rfl⟩
    simpa using hr r hrm

/-! The top-level action.  processFiles is modelled as a transition on the
reactive state of the page; the two file slots are Option values whose parse
outcome (of readExcelFile and readCSVFile) is an Except, since the only
observable behaviour of a slot here is whether reading it succeeds. -/

/-- The reactive state the action touches: the stored result, the error
message, and the processing flag. -/
structure AppState where
  processedData : Option (List Out)
  error : String
  isProcessing : Bool
deriving DecidableEq, Repr

/-- processFiles from the source: missing slots abort with one message and
touch nothing else; then the reference file is read, then the main file,
then matchData runs; any failure is caught and surfaced as one message
while the stored result stays as it was, and the finally clause clears the
processing flag. -/
def processFiles (mainSlot : Option (Except String (List RawRow)))
    (refSlot : Option (Except String (List RefRow))) (st : AppState) : AppState :=
  match mainSlot, refSlot with
  | none, _ => { st with error := "Please upload both files" }
  | some _, none => { st with error := "Please upload both files" }
  | some mf, some rf =>
    match rf with
    | Except.error e =>
      { st with error := "Error processing files: " ++ e, isProcessing := false }
    | Except.ok refData =>
      match mf with
      | Except.error e =>
        { st with error := "Error processing files: " ++ e, isProcessing := false }
      | Except.ok mainRaw =>
        { processedData := some (matchData (readCSVRows mainRaw) refData)
          error := ""
          isProcessing := false }

/-! Spec-side definitions, used only to state claims against the documented
behaviour; each follows the words of the specification, not the source. -/

/-- Written from the spec: column-name resolution tries the listed names in
order, the first non-empty value wins, and a field absent under every name
becomes the empty string. -/
def specPick (row : RawRow) : List String → String
  | [] => ""
  | k :: ks =>
    match row.lookup k with
    | some v => if v = "" then specPick row ks else v
    | none => specPick row ks

/-- Written from the claim on sorting, reading the sentinels literally: a
row whose Classroom is exactly the sentinel Not Found goes after everything,
a literal Found but no classroom row after every non-sentinel row, and rows
with neither literal sentinel are ordered case-insensitively
lexicographically by classroom. -/
def literalOrd (a b : Out) : Prop :=
  (a.classroom = "Not Found" → b.classroom = "Not Found")
  ∧ (a.classroom = "Found but no classroom" →
      b.classroom = "Found but no classroom" ∨ b.classroom = "Not Found")
  ∧ ((a.classroom ≠ "Not Found" ∧ a.classroom ≠ "Found but no classroom"
        ∧ b.classroom ≠ "Not Found" ∧ b.classroom ≠ "Found but no classroom") →
      lexLe (jsLower a.classroom) (jsLower b.classroom))

instance (a b : Out) : Decidable (literalOrd a b) := by
  unfold literalOrd lexLe
  infer_instance

/-- Remove every binding of one key from a row. -/
def dropKey (k : String) (r : List (String × String)) : List (String × String) :=
  r.filter (fun p => p.1 ≠ k)

theorem lookup_dropKey (k k' : String) (hne : k' ≠ k) :
    ∀ (r : List (String × String)), List.lookup k' (dropKey k r) = List.lookup k' r := by
  intro r
  induction r with
  | nil => rfl
  | cons p rest ih =>
    cases p with
    | mk a b =>
      by_cases h : a = k
      · have h1 : dropKey k ((a, b) :: rest) = dropKey k rest := by
          simp [dropKey, h]
        have h2 : (k' == a) = false := by
          simp only [beq_eq_false_iff_ne]
          rw [h]
          exact hne
        rw [h1, ih]
        simp only [List.lookup, h2]
      · have h1 : dropKey k ((a, b) :: rest) = (a, b) :: dropKey k rest := by
          simp [dropKey, h]
        rw [h1]
        simp only [List.lookup]
        cases hak : (k' == a) with
        | true => rfl
        | false => exact ih

/-! Lemmas about the name normalisation. -/

theorem wsp_lowerChar (c : Char) : (lowerChar c).isWhitespace = c.isWhitespace := by
  unfold lowerChar
  split <;> rfl

theorem isWs_comp_lowerChar : isWs ∘ lowerChar = isWs := by
  funext c
  simp only [Function.comp, isWs]
  exact wsp_lowerChar c

/-- Lowercasing and trimming commute, because lowering preserves
whitespace-ness of every character. -/
theorem jsTrim_jsLower (s : String) : jsTrim (jsLower s) = jsLower (jsTrim s) := by
  unfold jsTrim jsLower trimChars
  simp only [String.data]
  rw [List.dropWhile_map, isWs_comp_lowerChar, ← List.map_reverse,
    List.dropWhile_map, isWs_comp_lowerChar, ← List.map_reverse]

/-- The classroom value every matched row carries is determined by its own
full-name field and the reference data. -/
theorem matchData_classroom (main : List Student) (ref : List RefRow) (s : Out)
    (h : s ∈ matchData main ref) : s.classroom = lookupClassroom ref s.fullName := by
  rcases List.mem_map.mp h with ⟨t, _, rfl⟩
  simp [matchRow, jsOr_empty]

/-! Claim theorems. -/

/-- C1: the claim says a match takes the classroom from the matched
reference row, with the scenario Corrected Name ali hassan, Classroom 101
producing output 101.  The source instead reads the classroom only through
the lowercase key classroom, contradicting its own ReferenceStudent
interface and its upload instructions, so at the claim's own scenario the
output is the Found but no classroom sentinel: the claim is right and the
code has a slipped key. -/
theorem claim1_classroom_key_failing_input :
    matchData [⟨"", "Ali Hassan", "", ""⟩]
      [[("Corrected Name", "ali hassan"), ("Classroom", "101")]]
      = [⟨"", "Ali Hassan", "", "", "Found but no classroom"⟩] := by
  decide

/-- C2 counterexample: the claim says every expected column of both files is
read through its case-variant fallback chain.  For the reference file this
fails: a corrected-name stored under the lowercase variant key is never
found (the matcher reads only the exact key Corrected Name), although the
documented resolution (specPick) finds it, so the claimed lookup would have
matched this row. -/
theorem claim2_counterexample :
    (matchData [⟨"", "Ali Hassan", "", ""⟩]
        [[("corrected name", "ali hassan"), ("classroom", "101")]]).map Out.classroom
      = ["Not Found"]
    ∧ specPick [("corrected name", "ali hassan"), ("classroom", "101")]
        ["Corrected Name", "corrected name"] = "ali hassan" := by
  constructor
  · decide
  · decide

theorem specPick_cons (row : RawRow) (k : String) (ks : List String) :
    specPick row (k :: ks) = jsOrU (row.lookup k) (specPick row ks) := by
  cases h : row.lookup k <;> simp [specPick, jsOrU, h]

theorem lookupClassroom_dropKey (k : String) (h1 : ("Corrected Name" : String) ≠ k)
    (h2 : ("classroom" : String) ≠ k) (ref : List RefRow) (fn : String) :
    lookupClassroom (ref.map (dropKey k)) fn = lookupClassroom ref fn := by
  unfold lookupClassroom
  rw [List.find?_map]
  have hpred : ((fun row => nameMatches fn row) ∘ dropKey k)
      = fun row => nameMatches fn row := by
    funext row
    simp only [Function.comp, nameMatches]
    rw [lookup_dropKey k "Corrected Name" h1]
  rw [hpred]
  cases hf : ref.find? (fun row => nameMatches fn row) with
  | none => rfl
  | some row =>
    show jsOrU (List.lookup "classroom" (dropKey k row)) "Found but no classroom"
      = jsOrU (List.lookup "classroom" row) "Found but no classroom"
    rw [lookup_dropKey k "classroom" h2]

/-- C2 amended: the primary-file columns are indeed resolved through the
documented fallback chains with the first non-empty value winning and empty
string for absent fields; the reference-file lookups however use one fixed
key each, so dropping the capitalised Classroom bindings, or bindings under
the lowercase corrected name variant, never changes any output. -/
theorem claim2_amended :
    (∀ row : RawRow,
      filterRow row = ⟨specPick row ["Course", "course"],
        specPick row ["Full Name", "full name", "Full name"],
        specPick row ["Exam Marks", "exam marks", "Exam marks"],
        specPick row ["Total", "total"]⟩)
    ∧ (∀ (main : List Student) (ref : List RefRow),
        matchData main (ref.map (dropKey "Classroom")) = matchData main ref)
    ∧ (∀ (main : List Student) (ref : List RefRow),
        matchData main (ref.map (dropKey "corrected name")) = matchData main ref) := by
  refine ⟨fun row => ?_, fun main ref => ?_, fun main ref => ?_⟩
  · have hnil : specPick row [] = "" := rfl
    simp only [filterRow, specPick_cons, hnil]
  · unfold matchData
    have : matchRow (ref.map (dropKey "Classroom")) = matchRow ref := by
      funext s
      unfold matchRow
      rw [lookupClassroom_dropKey "Classroom" (by decide) (by decide)]
    rw [this]
  · unfold matchData
    have : matchRow (ref.map (dropKey "corrected name")) = matchRow ref := by
      funext s
      unfold matchRow
      rw [lookupClassroom_dropKey "corrected name" (by decide) (by decide)]
    rw [this]

theorem lookupClassroom_ne_empty (ref : List RefRow) (fn : String) :
    lookupClassroom ref fn ≠ "" := by
  unfold lookupClassroom
  cases h : ref.find? (fun row => nameMatches fn row) with
  | none =>
    show ("Not Found" : String) ≠ ""
    decide
  | some row =>
    show jsOrU (List.lookup "classroom" row) "Found but no classroom" ≠ ""
    cases hl : List.lookup "classroom" row with
    | none =>
      show ("Found but no classroom" : String) ≠ ""
      decide
    | some v =>
      show (if v = "" then "Found but no classroom" else v) ≠ ""
      by_cases hv : v = ""
      · rw [if_pos hv]
        decide
      · rw [if_neg hv]
        exact hv

/-- C3: every classroom the matcher outputs is a non-empty string, hence
exactly one of the three documented shapes: the Not Found sentinel, the
Found but no classroom sentinel, or a non-empty non-sentinel classroom; the
empty string never appears. -/
theorem claim3_output_classroom_shape (main : List Student) (ref : List RefRow)
    (s : Out) (h : s ∈ matchData main ref) :
    s.classroom ≠ ""
    ∧ (s.classroom = "Not Found" ∨ s.classroom = "Found but no classroom"
        ∨ (s.classroom ≠ "Not Found" ∧ s.classroom ≠ "Found but no classroom"
            ∧ s.classroom ≠ "")) := by
  have hc := matchData_classroom main ref s h
  have hne : s.classroom ≠ "" := by
    rw [hc]
    exact lookupClassroom_ne_empty ref s.fullName
  refine ⟨hne, ?_⟩
  by_cases h1 : s.classroom = "Not Found"
  · exact Or.inl h1
  · by_cases h2 : s.classroom = "Found but no classroom"
    · exact Or.inr (Or.inl h2)
    · exact Or.inr (Or.inr ⟨h1, h2, hne⟩)

/-- Witness for C3 at a concrete unmatched row. -/
theorem claim3_witness :
    (matchRow [] ⟨"", "Sara Lee", "", ""⟩).classroom ≠ ""
    ∧ ((matchRow [] ⟨"", "Sara Lee", "", ""⟩).classroom = "Not Found"
        ∨ (matchRow [] ⟨"", "Sara Lee", "", ""⟩).classroom = "Found but no classroom"
        ∨ ((matchRow [] ⟨"", "Sara Lee", "", ""⟩).classroom ≠ "Not Found"
            ∧ (matchRow [] ⟨"", "Sara Lee", "", ""⟩).classroom ≠ "Found but no classroom"
            ∧ (matchRow [] ⟨"", "Sara Lee", "", ""⟩).classroom ≠ "")) :=
  claim3_output_classroom_shape [⟨"", "Sara Lee", "", ""⟩] []
    (matchRow [] ⟨"", "Sara Lee", "", ""⟩) (by simp [matchData])

/-- C4: when the reference row carries a corrected name, the matcher
accepts the pair exactly when the two name fields agree after trimming
surrounding whitespace and lowercasing (in either order, since the two
operations commute). -/
theorem claim4_match_iff (s : Student) (row : RefRow) (c : String)
    (h : List.lookup "Corrected Name" row = some c) :
    (nameMatches s.fullName row = true
      ↔ jsLower (jsTrim c) = jsLower (jsTrim s.fullName)) := by
  have hn : ∀ t : String, normName t = jsLower (jsTrim t) := fun t => jsTrim_jsLower t
  unfold nameMatches
  rw [h]
  show (some (normName c) == some (normName s.fullName)) = true ↔ _
  rw [beq_iff_eq]
  simp only [Option.some.injEq]
  rw [hn, hn]

/-- Witness for C4: a padded lowercase entry matches the documented
Jane Doe corrected name. -/
theorem claim4_witness :
    nameMatches (Student.mk "" " jane doe " "" "").fullName
      [("Corrected Name", "Jane Doe")] = true :=
  (claim4_match_iff ⟨"", " jane doe ", "", ""⟩ [("Corrected Name", "Jane Doe")]
    "Jane Doe" (by decide)).mpr (by decide)

/-- C5 counterexample: the claim reads the sentinels literally, but the
comparator recognises them case-insensitively.  A reference classroom cell
holding the literal text NOT FOUND is not the sentinel Not Found, so under
the claim it is a non-sentinel row that sorts lexicographically before Zzz;
the code instead treats it as the sentinel and sends it to the end, so the
sorted output violates the claimed order. -/
theorem claim5_counterexample :
    sortedData (matchData [⟨"", "n one", "", ""⟩, ⟨"", "n two", "", ""⟩]
        [[("Corrected Name", "n one"), ("classroom", "NOT FOUND")],
          [("Corrected Name", "n two"), ("classroom", "Zzz")]])
      = [⟨"", "n two", "", "", "Zzz"⟩, ⟨"", "n one", "", "", "NOT FOUND"⟩]
    ∧ ¬ literalOrd ⟨"", "n two", "", "", "Zzz"⟩ ⟨"", "n one", "", "", "NOT FOUND"⟩ := by
  constructor
  · have hm : matchData [⟨"", "n one", "", ""⟩, ⟨"", "n two", "", ""⟩]
        [[("Corrected Name", "n one"), ("classroom", "NOT FOUND")],
          [("Corrected Name", "n two"), ("classroom", "Zzz")]]
        = [⟨"", "n one", "", "", "NOT FOUND"⟩, ⟨"", "n two", "", "", "Zzz"⟩] := by
      decide
    rw [hm]
    show mergeSortBy rowLe [⟨"", "n one", "", "", "NOT FOUND"⟩,
        ⟨"", "n two", "", "", "Zzz"⟩] = _
    rw [mergeSortBy]
    have hs : splitHalves ([⟨"", "n one", "", "", "NOT FOUND"⟩,
        ⟨"", "n two", "", "", "Zzz"⟩] : List Out)
        = ([⟨"", "n one", "", "", "NOT FOUND"⟩], [⟨"", "n two", "", "", "Zzz"⟩]) := rfl
    rw [hs]
    have h1 : mergeSortBy rowLe [(⟨"", "n one", "", "", "NOT FOUND"⟩ : Out)]
        = [⟨"", "n one", "", "", "NOT FOUND"⟩] := by
      rw [mergeSortBy]
    have h2 : mergeSortBy rowLe [(⟨"", "n two", "", "", "Zzz"⟩ : Out)]
        = [⟨"", "n two", "", "", "Zzz"⟩] := by
      rw [mergeSortBy]
    rw [h1, h2, mergeBy_cons_cons]
    have hle : rowLe ⟨"", "n one", "", "", "NOT FOUND"⟩ ⟨"", "n two", "", "", "Zzz"⟩
        = false := by
      decide
    rw [hle]
    simp [mergeBy]
  · intro h
    have h3 := h.2.2 (by refine ⟨?_, ?_, ?_, ?_⟩ <;> decide)
    rcases h3 with h3 | h3
    · exact absurd h3 (by decide)
    · exact absurd h3 (by decide)

/-- C5 amended: with the sentinels recognised case-insensitively on the
lowercased classroom key, exactly as the comparator does, the sorted output
is pairwise ordered: recognised Not Found rows after everything, recognised
Found but no classroom rows after every plain row, plain rows in
case-insensitive lexicographic order of their classroom. -/
theorem claim5_amended_sorted (l : List Out) : (sortedData l).Pairwise sortOrd :=
  pairwise_mergeSortBy sortOrd_trans rowLe_true_sortOrd rowLe_false_sortOrd l

/-- C9: the matcher returns exactly one output row per input row, in the
same order, and the row at every position carries the four kept fields of
the input row at that position. -/
theorem claim9_positional (main : List Student) (ref : List RefRow) :
    (matchData main ref).length = main.length
    ∧ ∀ (i : Nat) (h : i < main.length),
        ((matchData main ref).get ⟨i, by simpa [matchData] using h⟩
          = matchRow ref (main.get ⟨i, h⟩))
        ∧ ((matchData main ref).get ⟨i, by simpa [matchData] using h⟩).course
            = (main.get ⟨i, h⟩).course
        ∧ ((matchData main ref).get ⟨i, by simpa [matchData] using h⟩).fullName
            = (main.get ⟨i, h⟩).fullName
        ∧ ((matchData main ref).get ⟨i, by simpa [matchData] using h⟩).examMarks
            = (main.get ⟨i, h⟩).examMarks
        ∧ ((matchData main ref).get ⟨i, by simpa [matchData] using h⟩).total
            = (main.get ⟨i, h⟩).total := by
  refine ⟨by simp [matchData], fun i h => ?_⟩
  have hg : (matchData main ref).get ⟨i, by simpa [matchData] using h⟩
      = matchRow ref (main.get ⟨i, h⟩) := by
    simp [matchData, List.get_eq_getElem, List.getElem_map]
  refine ⟨hg, ?_, ?_, ?_, ?_⟩ <;> rw [hg] <;> simp [matchRow, jsOr_empty]

/-- Witness for C9 at a single concrete row. -/
theorem claim9_witness :
    ((matchData [⟨"c", "n", "e", "t"⟩] []).get ⟨0, by decide⟩).course
      = (([⟨"c", "n", "e", "t"⟩] : List Student).get ⟨0, by decide⟩).course :=
  (((claim9_positional [⟨"c", "n", "e", "t"⟩] []).2 0 (by decide)).2).1

/-- C10: a primary row whose full name normalises to the empty string is
matched against exactly the reference rows whose present corrected-name
field also normalises to the empty string; it is reported Not Found
precisely when the scan finds none, and otherwise resolved from the first
such row. -/
theorem claim10_empty_normalised (ref : List RefRow) (s : Student)
    (h : normName s.fullName = "") :
    (∀ row : RefRow, nameMatches s.fullName row = true
        ↔ (List.lookup "Corrected Name" row).map normName = some "")
    ∧ (ref.find? (fun row => nameMatches s.fullName row) = none →
        lookupClassroom ref s.fullName = "Not Found")
    ∧ (∀ row : RefRow, ref.find? (fun row => nameMatches s.fullName row) = some row →
        lookupClassroom ref s.fullName
          = jsOrU (List.lookup "classroom" row) "Found but no classroom") := by
  refine ⟨fun row => ?_, fun hf => ?_, fun row hf => ?_⟩
  · unfold nameMatches
    rw [h, beq_iff_eq]
  · unfold lookupClassroom
    rw [hf]
  · unfold lookupClassroom
    rw [hf]

/-- Witness for C10: a whitespace-only primary name matches a
whitespace-only corrected name. -/
theorem claim10_witness :
    nameMatches (Student.mk "" "  " "" "").fullName [("Corrected Name", "   ")] = true :=
  ((claim10_empty_normalised [[("Corrected Name", "   ")]] ⟨"", "  ", "", ""⟩
      (by decide)).1 [("Corrected Name", "   ")]).mpr (by decide)

/-- C7: the delimited-text export prepends a byte-order mark to the
serialised text, leaves both sentinels unwrapped in the classroom column,
wraps every other classroom value in the formula-style literal escape, and
serialises every field of every record quoted. -/
theorem claim7_export_format (rows : List Out) :
    (∃ t, downloadCSVText rows = '\uFEFF' :: t)
    ∧ (∀ s ∈ rows,
        ((s.classroom = "Not Found" ∨ s.classroom = "Found but no classroom") →
          (formatRow s).getLast? = some s.classroom)
        ∧ ((s.classroom ≠ "Not Found" ∧ s.classroom ≠ "Found but no classroom") →
          (formatRow s).getLast? = some ("=\"" ++ s.classroom ++ "\"")))
    ∧ (∀ r ∈ csvHeaderRow :: rows.map formatRow, ∀ f ∈ r,
        ∃ body, serFieldChars f.data = '"' :: (body ++ ['"'])) := by
  refine ⟨⟨_, rfl⟩, fun s _ => ⟨fun hs => ?_, fun hs => ?_⟩, fun r _ f _ => ?_⟩
  · have hw : wrapClassroom s.classroom = s.classroom := by
      unfold wrapClassroom
      rcases hs with hs | hs <;> simp [hs]
    show some (wrapClassroom s.classroom) = some s.classroom
    rw [hw]
  · have hw : wrapClassroom s.classroom = "=\"" ++ s.classroom ++ "\"" := by
      unfold wrapClassroom
      simp [hs.1, hs.2]
    show some (wrapClassroom s.classroom) = some ("=\"" ++ s.classroom ++ "\"")
    rw [hw]
  · exact ⟨escQuotes f.data, rfl⟩

/-- Witness for C7 at one concrete matched row. -/
theorem claim7_witness :
    (formatRow ⟨"", "Sara Lee", "", "", "Not Found"⟩).getLast?
      = some "Not Found" :=
  (((claim7_export_format [⟨"", "Sara Lee", "", "", "Not Found"⟩]).2.1
      ⟨"", "Sara Lee", "", "", "Not Found"⟩ (by simp)).1 (Or.inl rfl))

/-- C8: the action aborts with the single message when a slot is empty and
otherwise surfaces any read failure as one message; in every failure case
the stored result is untouched and no partial result appears, while a full
success stores the matched data and clears the error. -/
theorem claim8_process_errors (mainSlot : Option (Except String (List RawRow)))
    (refSlot : Option (Except String (List RefRow))) (st : AppState) :
    ((mainSlot = none ∨ refSlot = none) →
      processFiles mainSlot refSlot st = { st with error := "Please upload both files" })
    ∧ (∀ (mf : Except String (List RawRow)) (e : String),
        mainSlot = some mf → refSlot = some (Except.error e) →
        processFiles mainSlot refSlot st
          = { st with error := "Error processing files: " ++ e, isProcessing := false })
    ∧ (∀ (e : String) (rd : List RefRow),
        mainSlot = some (Except.error e) → refSlot = some (Except.ok rd) →
        processFiles mainSlot refSlot st
          = { st with error := "Error processing files: " ++ e, isProcessing := false })
    ∧ (∀ (mraw : List RawRow) (rd : List RefRow),
        mainSlot = some (Except.ok mraw) → refSlot = some (Except.ok rd) →
        processFiles mainSlot refSlot st
          = ⟨some (matchData (readCSVRows mraw) rd), "", false⟩) := by
  refine ⟨fun hm => ?_, fun mf e hm hr => ?_, fun e rd hm hr => ?_, fun mraw rd hm hr => ?_⟩
  · rcases hm with rfl | rfl
    · rfl
    · cases mainSlot with
      | none => rfl
      | some mf => rfl
  · subst hm
    subst hr
    rfl
  · subst hm
    subst hr
    rfl
  · subst hm
    subst hr
    rfl

/-- Witness for C8: missing slots leave the stored result as it was and set
the single message. -/
theorem claim8_witness :
    processFiles none none ⟨some [], "old error", true⟩
      = ⟨some [], "Please upload both files", true⟩ :=
  (claim8_process_errors none none ⟨some [], "old error", true⟩).1 (Or.inl rfl)

/-- Re-importing one exported record through the loader recovers exactly the
four kept fields of the exported row. -/
theorem filterRow_formatRow (s : Out) :
    filterRow (csvHeaderRow.zip (formatRow s))
      = ⟨s.course, s.fullName, s.examMarks, s.total⟩ := by
  have hz : csvHeaderRow.zip (formatRow s)
      = [("Course", jsOr s.course ""), ("Full Name", jsOr s.fullName ""),
          ("Exam Marks", jsOr s.examMarks ""), ("Total", jsOr s.total ""),
          ("Classroom", wrapClassroom s.classroom)] := rfl
  rw [hz]
  have l1 : List.lookup "Course"
      [("Course", jsOr s.course ""), ("Full Name", jsOr s.fullName ""),
        ("Exam Marks", jsOr s.examMarks ""), ("Total", jsOr s.total ""),
        ("Classroom", wrapClassroom s.classroom)] = some (jsOr s.course "") := rfl
  have l2 : List.lookup "course"
      [("Course", jsOr s.course ""), ("Full Name", jsOr s.fullName ""),
        ("Exam Marks", jsOr s.examMarks ""), ("Total", jsOr s.total ""),
        ("Classroom", wrapClassroom s.classroom)] = none := rfl
  have l3 : List.lookup "Full Name"
      [("Course", jsOr s.course ""), ("Full Name", jsOr s.fullName ""),
        ("Exam Marks", jsOr s.examMarks ""), ("Total", jsOr s.total ""),
        ("Classroom", wrapClassroom s.classroom)] = some (jsOr s.fullName "") := rfl
  have l4 : List.lookup "full name"
      [("Course", jsOr s.course ""), ("Full Name", jsOr s.fullName ""),
        ("Exam Marks", jsOr s.examMarks ""), ("Total", jsOr s.total ""),
        ("Classroom", wrapClassroom s.classroom)] = none := rfl
  have l5 : List.lookup "Full name"
      [("Course", jsOr s.course ""), ("Full Name", jsOr s.fullName ""),
        ("Exam Marks", jsOr s.examMarks ""), ("Total", jsOr s.total ""),
        ("Classroom", wrapClassroom s.classroom)] = none := rfl
  have l6 : List.lookup "Exam Marks"
      [("Course", jsOr s.course ""), ("Full Name", jsOr s.fullName ""),
        ("Exam Marks", jsOr s.examMarks ""), ("Total", jsOr s.total ""),
        ("Classroom", wrapClassroom s.classroom)] = some (jsOr s.examMarks "") := rfl
  have l7 : List.lookup "exam marks"
      [("Course", jsOr s.course ""), ("Full Name", jsOr s.fullName ""),
        ("Exam Marks", jsOr s.examMarks ""), ("Total", jsOr s.total ""),
        ("Classroom", wrapClassroom s.classroom)] = none := rfl
  have l8 : List.lookup "Exam marks"
      [("Course", jsOr s.course ""), ("Full Name", jsOr s.fullName ""),
        ("Exam Marks", jsOr s.examMarks ""), ("Total", jsOr s.total ""),
        ("Classroom", wrapClassroom s.classroom)] = none := rfl
  have l9 : List.lookup "Total"
      [("Course", jsOr s.course ""), ("Full Name", jsOr s.fullName ""),
        ("Exam Marks", jsOr s.examMarks ""), ("Total", jsOr s.total ""),
        ("Classroom", wrapClassroom s.classroom)] = some (jsOr s.total "") := rfl
  have l10 : List.lookup "total"
      [("Course", jsOr s.course ""), ("Full Name", jsOr s.fullName ""),
        ("Exam Marks", jsOr s.examMarks ""), ("Total", jsOr s.total ""),
        ("Classroom", wrapClassroom s.classroom)] = none := rfl
  have hnone : ∀ d : String, jsOrU none d = d := fun d => rfl
  unfold filterRow
  rw [l1, l2, l3, l4, l5, l6, l7, l8, l9, l10]
  simp only [hnone, jsOrU_some_empty, jsOr_empty]

/-- C6: re-importing the exported delimited text through the loader and
re-matching against the same reference data reproduces every classroom
assignment row by row, and the reparse recovers exactly the serialised
cells, so the quoting, the byte-order mark and the literal-string wrapper
alter no underlying field value beyond the wrapper itself. -/
theorem claim6_roundtrip (main : List Student) (ref : List RefRow) :
    (matchData (readCSVText (downloadCSVText (sortedData (matchData main ref)))) ref).map
        Out.classroom
      = (sortedData (matchData main ref)).map Out.classroom
    ∧ parseStrings (decodeFileText (downloadCSVText (sortedData (matchData main ref))))
      = csvHeaderRow :: (sortedData (matchData main ref)).map formatRow := by
  have hdec : ∀ rows : List Out, decodeFileText (downloadCSVText rows)
      = unparseStrings (csvHeaderRow :: rows.map formatRow) := by
    intro rows
    simp [downloadCSVText, decodeFileText]
  have hparse : parseStrings (decodeFileText (downloadCSVText (sortedData (matchData main ref))))
      = csvHeaderRow :: (sortedData (matchData main ref)).map formatRow := by
    rw [hdec]
    apply parseStrings_unparseStrings
    · simp
    · intro row hrow
      rcases List.mem_cons.mp hrow with h | hrow
      · rw [h]
        simp [csvHeaderRow]
      · rcases List.mem_map.mp hrow with ⟨s, _, h⟩
        rw [← h]
        simp [formatRow]
  refine ⟨?_, hparse⟩
  have hread : readCSVText (downloadCSVText (sortedData (matchData main ref)))
      = (sortedData (matchData main ref)).map
          (fun s => (⟨s.course, s.fullName, s.examMarks, s.total⟩ : Student)) := by
    unfold readCSVText papaObjects
    rw [hparse]
    rw [List.map_map, List.map_map]
    apply List.map_congr_left
    intro s _
    exact filterRow_formatRow s
  rw [hread]
  unfold matchData
  rw [List.map_map, List.map_map]
  apply List.map_congr_left
  intro s hs
  show (matchRow ref ⟨s.course, s.fullName, s.examMarks, s.total⟩).classroom = s.classroom
  have h2 : s.classroom = lookupClassroom ref s.fullName :=
    matchData_classroom main ref s
      ((mem_mergeSortBy rowLe (matchData main ref) s).mp hs)
  rw [h2]
  rfl

end StudentComparator
